import Mathlib

/-!
Shallow embedding of the knowledge-graph construction of `kg.py`
(repository HEAL_CDEs_KG).

The script reads a CSV, stringifies every cell (missing cells become the
literal string "nan"), and builds a pyvis graph:

* `create_knowledge_graph` counts all cell values (`Counter`), takes the
  maximum count (`max(...)`, which in Python raises on an empty sequence),
  then folds over the rows;
* per row it registers the anchor value (column `Core CDE Measures`)
  verbatim as a node, runs `process_entries` on the five satellite
  columns, and adds edges with `net.add_edge`;
* `process_entries` splits a cell on commas, strips each piece, and
  registers fresh non-empty pieces as fixed-size nodes.

The pyvis `Network` object is modelled as a record of the node records and
the sequence of `(from, to)` pairs in the order the script issues the
`add_node` / `add_edge` calls; Python's float arithmetic on node sizes is
modelled exactly over `ℚ`.  The `added_nodes` set of the script is kept as
a list of labels in insertion order (only membership is ever queried).
-/

namespace HealKG

/-- Whitespace characters removed by Python `str.strip()` (ASCII range;
the data at hand contains only ASCII spacing). -/
def isSpaceChar (c : Char) : Bool :=
  c = ' ' || c = '\t' || c = '\n' || c = '\r' || c = '\x0b' || c = '\x0c'

/-- Python `s.split(',')` on a character list: split at every comma,
keeping empty pieces. -/
def splitCommaChars : List Char → List (List Char)
  | [] => [[]]
  | c :: rest =>
    match splitCommaChars rest with
    | [] => [[]]
    | g :: gs => if c = ',' then [] :: g :: gs else (c :: g) :: gs

/-- Python `s.strip()` on a character list: drop leading and trailing
whitespace. -/
def stripChars (l : List Char) : List Char :=
  ((l.dropWhile isSpaceChar).reverse.dropWhile isSpaceChar).reverse

/-- Python `s.strip()`. -/
def strip (s : String) : String := ⟨stripChars s.data⟩

/-- Python `s.split(',')`. -/
def splitCommas (s : String) : List String :=
  (splitCommaChars s.data).map fun l => ⟨l⟩

/-- The `color_map` dictionary of `kg.py` (lookup by category name). -/
def color_map (t : String) : String :=
  if t = "Core CDE Measures" then "#4b0082"
  else if t = "Domain" then "#dda0dd"
  else if t = "Questionnaire" then "#ff1493"
  else if t = "Study Name" then "#1f77b4"
  else if t = "PI Name" then "#2ca02c"
  else if t = "HEAL Research Program" then "#ffb6c1"
  else ""

/-- The `shape_map` dictionary of `kg.py`. -/
def shape_map (t : String) : String :=
  if t = "Core CDE Measures" then "dot"
  else if t = "Domain" then "ellipse"
  else if t = "Questionnaire" then "square"
  else if t = "HEAL Research Program" then "triangle"
  else if t = "Study Name" then "text"
  else if t = "PI Name" then "text"
  else ""

/-- A pyvis node as created by `net.add_node(id, label=..., color=...,
size=..., shape=...)`.  Sizes are Python floats, modelled over `ℚ`. -/
structure Node where
  id : String
  label : String
  color : String
  size : ℚ
  shape : String
deriving DecidableEq

/-- The graph state: the pyvis `net` (its node records and its edge
records, each edge a `(from, to)` pair recorded by `net.add_edge`),
together with the script's `added_nodes` set, kept as the list of labels
in insertion order (the script only tests membership). -/
structure Net where
  nodes : List Node
  edges : List (String × String)
  added : List String
deriving DecidableEq

/-- The empty graph state. -/
def Net.empty : Net := ⟨[], [], []⟩

/-- `net.add_node(...)`: append the node record. -/
def Net.add_node (net : Net) (v : Node) : Net :=
  { net with nodes := net.nodes ++ [v] }

/-- `added_nodes.add(label)`. -/
def Net.mark_added (net : Net) (l : String) : Net :=
  { net with added := net.added ++ [l] }

/-- `net.add_edge(a, b)`: append the `(from, to)` record. -/
def Net.add_edge (net : Net) (a b : String) : Net :=
  { net with edges := net.edges ++ [(a, b)] }

/-- One CSV row after `astype(str)`, restricted to the six configured
columns (accessed in `kg.py` via `columns.get_loc`). -/
structure Row where
  core : String
  domain : String
  questionnaire : String
  program : String
  study : String
  pi : String
deriving DecidableEq

/-- The row as iterated by `for descriptor in entry` (all cells). -/
def Row.cells (r : Row) : List String :=
  [r.core, r.domain, r.questionnaire, r.program, r.study, r.pi]

/-- The list comprehension `all_descriptors`: every cell of every row that
is neither `'nan'` nor `''`. -/
def all_descriptors (data : List Row) : List String :=
  ((data.map Row.cells).flatten).filter fun d => decide (¬(d = "nan" ∨ d = ""))

/-- `descriptor_frequency = Counter(all_descriptors)`: the count of a value
in `all_descriptors` (0 for absent keys, as with Python's `Counter`). -/
def descriptor_frequency (data : List Row) (d : String) : ℕ :=
  (all_descriptors data).count d

/-- `max(descriptor_frequency.values())` for a nonempty descriptor list
(Python's `max` raises `ValueError` on an empty sequence, which
`create_knowledge_graph` models with `Except.error`).  Taking the maximum
of the counts over all elements equals the maximum over the distinct
keys. -/
def max_frequency (data : List Row) : ℕ :=
  (((all_descriptors data).map (descriptor_frequency data)).foldl Nat.max 0)

/-- The loop body of `process_entries`: strip each piece; a non-empty piece
not yet in `added_nodes` is added as a fixed-size node and recorded; every
non-empty piece is appended to `item_nodes`. -/
def processItems (entry_type : String) (net : Net) : List String → List String × Net
  | [] => ([], net)
  | raw :: rest =>
    let item := strip raw
    if item ≠ "" ∧ item ∉ net.added then
      let net1 := (net.add_node
        ⟨item, item, color_map entry_type, 15, shape_map entry_type⟩).mark_added item
      let r := processItems entry_type net1 rest
      (item :: r.1, r.2)
    else if item ≠ "" then
      let r := processItems entry_type net rest
      (item :: r.1, r.2)
    else
      processItems entry_type net rest

/-- `process_entries(entries, entry_type, added_nodes)` of `kg.py`: on the
missing sentinel or the empty string return no items; otherwise split on
commas and run the item loop. -/
def process_entries (entries : String) (entry_type : String) (net : Net) :
    List String × Net :=
  if ¬(entries = "nan" ∨ entries = "") then
    processItems entry_type net (splitCommas entries)
  else ([], net)

/-- The edge loops at the end of the row body: for each category's item
list, link the anchor value to each item, then link the item to every item
of every other category (the `other_key != key` loop). -/
def addRowEdges (cde : String) (dict : List (String × List String)) (net : Net) : Net :=
  dict.foldl (fun n kv =>
    kv.2.foldl (fun n node =>
      dict.foldl (fun n kv2 =>
        if kv2.1 = kv.1 then n
        else kv2.2.foldl (fun n onode => n.add_edge node onode) n)
        (n.add_edge cde node))
      n)
    net

/-- Anchor registration within the row loop: if the anchor cell is neither
`'nan'` nor `''` and not yet registered, add the frequency-scaled anchor
node. -/
def anchorStep (freq : String → ℕ) (maxF : ℕ) (net0 : Net) (cde : String) : Net :=
  if ¬(cde = "nan" ∨ cde = "") ∧ cde ∉ net0.added then
    (net0.add_node ⟨cde, cde, color_map "Core CDE Measures",
      30 * ((freq cde : ℚ) / (maxF : ℚ)), shape_map "Core CDE Measures"⟩).mark_added cde
  else net0

/-- One iteration of `for entry in data` in `create_knowledge_graph`:
register the anchor node when the anchor cell is valid and fresh, process
the five satellite columns in their fixed order, then add the row's
edges. -/
def processRow (freq : String → ℕ) (maxF : ℕ) (net0 : Net) (entry : Row) : Net :=
  let cde := entry.core
  let net1 := anchorStep freq maxF net0 cde
  let rDomain := process_entries entry.domain "Domain" net1
  let rQuest := process_entries entry.questionnaire "Questionnaire" rDomain.2
  let rProg := process_entries entry.program "HEAL Research Program" rQuest.2
  let rStudy := process_entries entry.study "Study Name" rProg.2
  let rPi := process_entries entry.pi "PI Name" rStudy.2
  let dict : List (String × List String) :=
    [("Domain", rDomain.1), ("Questionnaire", rQuest.1),
     ("HEAL Research Program", rProg.1), ("Study Name", rStudy.1),
     ("PI Name", rPi.1)]
  addRowEdges cde dict rPi.2

/-- The row fold of `create_knowledge_graph` from a given state. -/
def buildRows (freq : String → ℕ) (maxF : ℕ) (net : Net) (data : List Row) : Net :=
  data.foldl (processRow freq maxF) net

/-- The graph built by the row loop of `create_knowledge_graph` on a
dataset (frequency data computed as in the script). -/
def builtNet (data : List Row) : Net :=
  buildRows (descriptor_frequency data) (max_frequency data) Net.empty data

/-- `create_knowledge_graph(data, columns)`: Python evaluates
`max(descriptor_frequency.values())` before the row loop and raises
`ValueError` when `all_descriptors` is empty; otherwise the row loop runs
to completion. -/
def create_knowledge_graph (data : List Row) : Except String Net :=
  if all_descriptors data = [] then
    Except.error "ValueError: max() arg is an empty sequence"
  else
    Except.ok (builtNet data)

/-!
Specification-side view of the construction.

The theorems below characterise the stateful build in terms of pure
functions on the input rows: `normalize` is the item list a cell
contributes, `encounters` is the stream of `(label, category)` pairs in
the scan order of the script (anchor cell first, then the five satellite
columns, row by row), `firstOccur` keeps the first occurrence of each
label, and `rowEdgeList` is the edge block one row appends.
-/

/-- The item list a satellite cell contributes: nothing for the missing
sentinel or the empty string, else the comma-separated pieces, stripped,
with pieces that become empty dropped (duplicates preserved). -/
def normalize (entries : String) : List String :=
  if ¬(entries = "nan" ∨ entries = "") then
    ((splitCommas entries).map strip).filter fun i => decide (i ≠ "")
  else []

/-- The `(label, category)` pairs one row presents to the node registry,
in scan order: the raw anchor cell (when valid) first, then the stripped
items of the five satellite columns in their fixed order. -/
def rowEncounters (r : Row) : List (String × String) :=
  (if ¬(r.core = "nan" ∨ r.core = "") then [(r.core, "Core CDE Measures")] else [])
    ++ (normalize r.domain).map (fun i => (i, "Domain"))
    ++ (normalize r.questionnaire).map (fun i => (i, "Questionnaire"))
    ++ (normalize r.program).map (fun i => (i, "HEAL Research Program"))
    ++ (normalize r.study).map (fun i => (i, "Study Name"))
    ++ (normalize r.pi).map (fun i => (i, "PI Name"))

/-- The encounter stream of a whole dataset (row-then-column scan order). -/
def encounters (data : List Row) : List (String × String) :=
  (data.map rowEncounters).flatten

/-- Keep the first occurrence of each label, given labels already seen. -/
def firstOccur : List (String × String) → List String → List (String × String)
  | [], _ => []
  | p :: ps, seen =>
    if p.1 ∈ seen then firstOccur ps seen
    else p :: firstOccur ps (seen ++ [p.1])

/-- The node the script creates for a first encounter of `p.1` under
category `p.2`: anchor encounters get the frequency-scaled size, all
others the fixed size 15. -/
def specNode (freq : String → ℕ) (maxF : ℕ) (p : String × String) : Node :=
  ⟨p.1, p.1, color_map p.2,
    if p.2 = "Core CDE Measures" then 30 * ((freq p.1 : ℚ) / (maxF : ℚ)) else 15,
    shape_map p.2⟩

/-- Registration of an encounter stream: add a node for each label not yet
seen, in order. -/
def register (freq : String → ℕ) (maxF : ℕ) (net : Net) (ps : List (String × String)) : Net :=
  ps.foldl
    (fun n p =>
      if p.1 ∈ n.added then n
      else (n.add_node (specNode freq maxF p)).mark_added p.1)
    net

/-- The `entries_dict` of a row expressed through `normalize`. -/
def rowDict (r : Row) : List (String × List String) :=
  [("Domain", normalize r.domain), ("Questionnaire", normalize r.questionnaire),
   ("HEAL Research Program", normalize r.program), ("Study Name", normalize r.study),
   ("PI Name", normalize r.pi)]

/-- The edges issued for one item `node` of category `key`: first the
anchor edge `(cde, node)`, then an edge to every item of every other
category. -/
def crossBlock (cde : String) (dict : List (String × List String)) (key node : String) :
    List (String × String) :=
  (cde, node) ::
    dict.flatMap fun kv2 => if kv2.1 = key then [] else kv2.2.map fun o => (node, o)

/-- All edges issued by the edge loops for one row's dictionary. -/
def rowEdgesSpec (cde : String) (dict : List (String × List String)) :
    List (String × String) :=
  dict.flatMap fun kv => kv.2.flatMap (crossBlock cde dict kv.1)

/-- The edge block one row appends to the edge sequence. -/
def rowEdgeList (r : Row) : List (String × String) :=
  rowEdgesSpec r.core (rowDict r)

/-- The six category names of the configuration. -/
def categoryNames : List String :=
  ["Core CDE Measures", "Domain", "Questionnaire", "HEAL Research Program",
   "Study Name", "PI Name"]

/-- Modelled from the spec for the comparison in C3 and C4: the valid
values of the anchor column only ("the anchor category's column"). -/
def anchor_values (data : List Row) : List String :=
  (data.map Row.core).filter fun d => decide (¬(d = "nan" ∨ d = ""))

/-- Modelled from the spec for the comparison in C3: occurrences of a
value in the anchor column only. -/
def anchor_count (data : List Row) (l : String) : ℕ :=
  (anchor_values data).count l

/-- Modelled from the spec for the comparison in C3: the maximum
anchor-column count. -/
def max_anchor_count (data : List Row) : ℕ :=
  ((anchor_values data).map (anchor_count data)).foldl Nat.max 0

/-- One row with anchor `"A"` and one item in each of two categories. -/
def dCross : List Row := [⟨"A", "D", "Q", "nan", "nan", "nan"⟩]

/-- A dataset whose Domain column repeats the value `"D"`, once in a row
with a missing anchor. -/
def dAllCols : List Row :=
  [⟨"A", "D", "nan", "nan", "nan", "nan"⟩, ⟨"nan", "D", "nan", "nan", "nan", "nan"⟩]

/-- A dataset with no valid cell at all. -/
def dEmpty : List Row := [⟨"nan", "nan", "nan", "nan", "nan", "nan"⟩]

/-- A dataset with no valid anchor value but one valid Domain value. -/
def dNoAnchor : List Row := [⟨"nan", "D", "nan", "nan", "nan", "nan"⟩]

/-- A single row whose anchor cell is missing and whose Domain holds one
item. -/
def dMissingAnchor : List Row := [⟨"nan", "Pain", "nan", "nan", "nan", "nan"⟩]

/-- A dataset in which the anchor value `"X"` occurs once while the most
frequent value `"Y"` occurs four times. -/
def dScaled : List Row :=
  [⟨"X", "Y", "nan", "nan", "nan", "nan"⟩, ⟨"nan", "Y", "nan", "nan", "nan", "nan"⟩,
   ⟨"nan", "Y", "nan", "nan", "nan", "nan"⟩, ⟨"nan", "Y", "nan", "nan", "nan", "nan"⟩]

/-- A row whose Domain and Questionnaire cells hold the same label. -/
def dDup : List Row := [⟨"A", "D", "D", "nan", "nan", "nan"⟩]

/-- A row whose anchor cell contains a comma. -/
def dCommaAnchor : List Row := [⟨"A, B", "nan", "nan", "nan", "nan", "nan"⟩]

/-- A row whose anchor cell differs from a Domain item only by leading
whitespace. -/
def dSpaceAnchor : List Row := [⟨" X", "X", "nan", "nan", "nan", "nan"⟩]

/-- A row whose Domain cell contains `"nan"` as one comma-separated
item. -/
def dNanItem : List Row := [⟨"A", "Pain,nan", "nan", "nan", "nan", "nan"⟩]

/-- The anchor node the build of `dAllCols` creates for `"A"`. -/
def cNodeA : Node := ⟨"A", "A", "#4b0082", 15, "dot"⟩

/-- The anchor node the build of `dScaled` creates for `"X"` (size below
the declared minimum of 15). -/
def cNodeX : Node := ⟨"X", "X", "#4b0082", 15 / 2, "dot"⟩

/-- The Domain node the build of `dScaled` creates for `"Y"`. -/
def cNodeY : Node := ⟨"Y", "Y", "#dda0dd", 15, "ellipse"⟩

/-- The Domain node the build of `dNoAnchor` creates for `"D"`. -/
def cNodeD : Node := ⟨"D", "D", "#dda0dd", 15, "ellipse"⟩

/-- The item list returned by the `process_entries` loop is the stripped,
non-empty pieces in order, independent of the registry state. -/
theorem processItems_fst (t : String) (items : List String) :
    ∀ net : Net, (processItems t net items).1 =
      (items.map strip).filter fun i => decide (i ≠ "") := by
  induction items with
  | nil => intro net; simp [processItems]
  | cons raw rest ih =>
    intro net
    by_cases h1 : strip raw = ""
    · simp [processItems, h1, ih]
    · by_cases h2 : strip raw ∈ net.added
      · simp [processItems, h1, h2, ih]
      · simp [processItems, h1, h2, ih]

/-- The state after the `process_entries` loop is the registration of the
stripped non-empty pieces under the given category. -/
theorem processItems_snd (freq : String → ℕ) (maxF : ℕ) (t : String)
    (ht : t ≠ "Core CDE Measures") (items : List String) :
    ∀ net : Net, (processItems t net items).2 =
      register freq maxF net
        (((items.map strip).filter fun i => decide (i ≠ "")).map fun i => (i, t)) := by
  induction items with
  | nil => intro net; simp [processItems, register]
  | cons raw rest ih =>
    intro net
    by_cases h1 : strip raw = ""
    · simp [processItems, h1, ih]
    · by_cases h2 : strip raw ∈ net.added
      · simp [processItems, register, h1, h2, ih]
      · simp [processItems, register, specNode, h1, h2, ht, ih]

/-- Restatement of `process_entries` through `normalize` (returned items). -/
theorem process_entries_fst (entries t : String) (net : Net) :
    (process_entries entries t net).1 = normalize entries := by
  by_cases h : entries = "nan" ∨ entries = ""
  · simp [process_entries, normalize, h]
  · simp [process_entries, normalize, h, processItems_fst]

/-- Restatement of `process_entries` through `register` (state change). -/
theorem process_entries_snd (freq : String → ℕ) (maxF : ℕ) (entries t : String)
    (ht : t ≠ "Core CDE Measures") (net : Net) :
    (process_entries entries t net).2 =
      register freq maxF net ((normalize entries).map fun i => (i, t)) := by
  by_cases h : entries = "nan" ∨ entries = ""
  · simp [process_entries, normalize, register, h]
  · simp [process_entries, normalize, h, processItems_snd freq maxF t ht]

/-- Registration never touches the edge sequence. -/
theorem register_edges (freq : String → ℕ) (maxF : ℕ) (ps : List (String × String)) :
    ∀ net : Net, (register freq maxF net ps).edges = net.edges := by
  induction ps with
  | nil => intro net; simp [register]
  | cons p ps ih =>
    intro net
    by_cases h : p.1 ∈ net.added
    · simpa [register, h] using ih _
    · simpa [register, h, Net.add_node, Net.mark_added] using ih _

/-- Registration appends exactly the nodes of the first occurrences of the
labels not already seen. -/
theorem register_nodes (freq : String → ℕ) (maxF : ℕ) (ps : List (String × String)) :
    ∀ net : Net, (register freq maxF net ps).nodes =
      net.nodes ++ (firstOccur ps net.added).map (specNode freq maxF) := by
  induction ps with
  | nil => intro net; simp [register, firstOccur]
  | cons p ps ih =>
    intro net
    by_cases h : p.1 ∈ net.added
    · simpa [register, firstOccur, h] using ih _
    · have := ih ((net.add_node (specNode freq maxF p)).mark_added p.1)
      simp [register, firstOccur, h, Net.add_node, Net.mark_added] at this ⊢
      simp [this]

/-- Registration appends exactly the fresh labels to the seen set. -/
theorem register_added (freq : String → ℕ) (maxF : ℕ) (ps : List (String × String)) :
    ∀ net : Net, (register freq maxF net ps).added =
      net.added ++ (firstOccur ps net.added).map Prod.fst := by
  induction ps with
  | nil => intro net; simp [register, firstOccur]
  | cons p ps ih =>
    intro net
    by_cases h : p.1 ∈ net.added
    · simpa [register, firstOccur, h] using ih _
    · have := ih ((net.add_node (specNode freq maxF p)).mark_added p.1)
      simp [register, firstOccur, h, Net.add_node, Net.mark_added] at this ⊢
      simp [this]

/-- Registration of a concatenated stream is sequential registration. -/
theorem register_append (freq : String → ℕ) (maxF : ℕ) (net : Net)
    (ps qs : List (String × String)) :
    register freq maxF net (ps ++ qs) =
      register freq maxF (register freq maxF net ps) qs := by
  simp [register, List.foldl_append]

/-- First occurrences of a concatenated stream. -/
theorem firstOccur_append (ps qs : List (String × String)) :
    ∀ seen : List String, firstOccur (ps ++ qs) seen =
      firstOccur ps seen ++
        firstOccur qs (seen ++ (firstOccur ps seen).map Prod.fst) := by
  induction ps with
  | nil => intro seen; simp [firstOccur]
  | cons p ps ih =>
    intro seen
    by_cases h : p.1 ∈ seen
    · simp [firstOccur, h, ih]
    · simp [firstOccur, h, ih]

/-- A first occurrence comes from the stream. -/
theorem firstOccur_subset {p : String × String} (ps : List (String × String)) :
    ∀ seen : List String, p ∈ firstOccur ps seen → p ∈ ps := by
  induction ps with
  | nil => intro seen h; simp [firstOccur] at h
  | cons q ps ih =>
    intro seen h
    by_cases hq : q.1 ∈ seen
    · simp only [firstOccur, if_pos hq] at h
      exact List.mem_cons_of_mem _ (ih _ h)
    · simp only [firstOccur, if_neg hq, List.mem_cons] at h
      rcases h with h | h
      · simp [h]
      · exact List.mem_cons_of_mem _ (ih _ h)

/-- A label appears among the first occurrences iff it appears in the
stream and was not already seen. -/
theorem firstOccur_fst_mem (l : String) (ps : List (String × String)) :
    ∀ seen : List String,
      (l ∈ (firstOccur ps seen).map Prod.fst ↔
        l ∈ ps.map Prod.fst ∧ l ∉ seen) := by
  induction ps with
  | nil => intro seen; simp [firstOccur]
  | cons p ps ih =>
    intro seen
    by_cases h : p.1 ∈ seen
    · simp only [firstOccur, if_pos h, List.map_cons, List.mem_cons, ih]
      constructor
      · rintro ⟨h1, h2⟩; exact ⟨Or.inr h1, h2⟩
      · rintro ⟨h1 | h1, h2⟩
        · exact absurd (h1 ▸ h) h2
        · exact ⟨h1, h2⟩
    · simp only [firstOccur, if_neg h, List.map_cons, List.mem_cons, ih]
      constructor
      · rintro (h1 | ⟨h1, h2⟩)
        · exact ⟨Or.inl h1, h1 ▸ h⟩
        · simp at h2
          exact ⟨Or.inr h1, h2.1⟩
      · rintro ⟨h1 | h1, h2⟩
        · exact Or.inl h1
        · by_cases hl : l = p.1
          · exact Or.inl hl
          · exact Or.inr ⟨h1, by simp [h2, hl]⟩

/-- The labels of the first occurrences are pairwise distinct. -/
theorem firstOccur_fst_nodup (ps : List (String × String)) :
    ∀ seen : List String, ((firstOccur ps seen).map Prod.fst).Nodup := by
  induction ps with
  | nil => intro seen; simp [firstOccur]
  | cons p ps ih =>
    intro seen
    by_cases h : p.1 ∈ seen
    · simpa [firstOccur, h] using ih seen
    · simp only [firstOccur, if_neg h, List.map_cons, List.nodup_cons]
      refine ⟨fun hmem => ?_, ih _⟩
      have := (firstOccur_fst_mem p.1 ps (seen ++ [p.1])).1 hmem
      simp at this

/-- Folding `add_edge` over one item's partner list appends the mapped
pairs. -/
theorem foldl_add_edge (node : String) (l : List String) :
    ∀ net : Net, (l.foldl (fun n onode => n.add_edge node onode) net) =
      { net with edges := net.edges ++ l.map fun o => (node, o) } := by
  induction l with
  | nil => intro net; simp
  | cons o l ih =>
    intro net
    rw [List.foldl_cons, ih]
    simp [Net.add_edge]

/-- The inner `other_key != key` loop appends the cross edges of one
item. -/
theorem foldl_cross (node key : String) (dict : List (String × List String)) :
    ∀ net : Net,
      (dict.foldl (fun n kv2 =>
        if kv2.1 = key then n
        else kv2.2.foldl (fun n onode => n.add_edge node onode) n) net) =
      { net with edges := net.edges ++
          dict.flatMap fun kv2 =>
            if kv2.1 = key then [] else kv2.2.map fun o => (node, o) } := by
  induction dict with
  | nil => intro net; simp
  | cons kv dict ih =>
    intro net
    simp only [List.foldl_cons]
    by_cases h : kv.1 = key
    · rw [if_pos h, ih]
      simp [h]
    · rw [if_neg h, foldl_add_edge, ih]
      simp [h]

/-- The loop over one category's items appends each item's anchor edge and
cross edges. -/
theorem foldl_items (cde key : String) (dict : List (String × List String))
    (l : List String) :
    ∀ net : Net,
      (l.foldl (fun n node =>
        dict.foldl (fun n kv2 =>
          if kv2.1 = key then n
          else kv2.2.foldl (fun n onode => n.add_edge node onode) n)
          (n.add_edge cde node)) net) =
      { net with edges := net.edges ++ l.flatMap (crossBlock cde dict key) } := by
  induction l with
  | nil => intro net; simp
  | cons node l ih =>
    intro net
    simp only [List.foldl_cons]
    rw [foldl_cross, ih]
    simp [crossBlock, Net.add_edge]

/-- The edge loops of a row append exactly `rowEdgesSpec` for the part of
the dictionary iterated so far. -/
theorem foldl_dict (cde : String) (dict dict1 : List (String × List String)) :
    ∀ net : Net,
      (dict1.foldl (fun n kv =>
        kv.2.foldl (fun n node =>
          dict.foldl (fun n kv2 =>
            if kv2.1 = kv.1 then n
            else kv2.2.foldl (fun n onode => n.add_edge node onode) n)
            (n.add_edge cde node)) n) net) =
      { net with edges := net.edges ++
          dict1.flatMap fun kv => kv.2.flatMap (crossBlock cde dict kv.1) } := by
  induction dict1 with
  | nil => intro net; simp
  | cons kv dict1 ih =>
    intro net
    simp only [List.foldl_cons]
    rw [foldl_items, ih]
    simp

/-- `addRowEdges` only appends the row's edge block. -/
theorem addRowEdges_eq (cde : String) (dict : List (String × List String)) (net : Net) :
    addRowEdges cde dict net = { net with edges := net.edges ++ rowEdgesSpec cde dict } := by
  unfold addRowEdges rowEdgesSpec
  exact foldl_dict cde dict dict net

/-- The anchor branch of the row loop is registration of the anchor
encounter. -/
theorem anchorStep_eq (freq : String → ℕ) (maxF : ℕ) (net : Net) (cde : String) :
    anchorStep freq maxF net cde =
      register freq maxF net
        (if ¬(cde = "nan" ∨ cde = "") then [(cde, "Core CDE Measures")] else []) := by
  by_cases h : cde = "nan" ∨ cde = ""
  · simp [anchorStep, register, h]
  · by_cases h2 : cde ∈ net.added
    · simp [anchorStep, register, h, h2]
    · simp [anchorStep, register, specNode, h, h2]

/-- One row of the build: register the row's encounters, then append the
row's edge block. -/
theorem processRow_eq (freq : String → ℕ) (maxF : ℕ) (net : Net) (r : Row) :
    processRow freq maxF net r =
      addRowEdges r.core (rowDict r) (register freq maxF net (rowEncounters r)) := by
  simp only [processRow]
  rw [process_entries_snd freq maxF r.domain "Domain" (by decide),
    process_entries_snd freq maxF r.questionnaire "Questionnaire" (by decide),
    process_entries_snd freq maxF r.program "HEAL Research Program" (by decide),
    process_entries_snd freq maxF r.study "Study Name" (by decide),
    process_entries_snd freq maxF r.pi "PI Name" (by decide),
    anchorStep_eq]
  rw [← register_append, ← register_append, ← register_append, ← register_append,
    ← register_append]
  simp only [process_entries_fst]
  rfl

/-- Node list after one row. -/
theorem processRow_nodes (freq : String → ℕ) (maxF : ℕ) (net : Net) (r : Row) :
    (processRow freq maxF net r).nodes =
      net.nodes ++ (firstOccur (rowEncounters r) net.added).map (specNode freq maxF) := by
  rw [processRow_eq, addRowEdges_eq]
  simp [register_nodes]

/-- Seen set after one row. -/
theorem processRow_added (freq : String → ℕ) (maxF : ℕ) (net : Net) (r : Row) :
    (processRow freq maxF net r).added =
      net.added ++ (firstOccur (rowEncounters r) net.added).map Prod.fst := by
  rw [processRow_eq, addRowEdges_eq]
  simp [register_added]

/-- Edge list after one row. -/
theorem processRow_edges (freq : String → ℕ) (maxF : ℕ) (net : Net) (r : Row) :
    (processRow freq maxF net r).edges = net.edges ++ rowEdgeList r := by
  rw [processRow_eq, addRowEdges_eq]
  simp [register_edges, rowEdgeList]

/-- The encounter stream of a dataset decomposes row by row. -/
theorem encounters_cons (r : Row) (data : List Row) :
    encounters (r :: data) = rowEncounters r ++ encounters data := by
  simp [encounters]

/-- The node list of the whole build is the first occurrence of each label
in the encounter stream, styled by its category of first encounter. -/
theorem buildRows_nodes (freq : String → ℕ) (maxF : ℕ) (data : List Row) :
    ∀ net : Net, (buildRows freq maxF net data).nodes =
      net.nodes ++ (firstOccur (encounters data) net.added).map (specNode freq maxF) := by
  induction data with
  | nil => intro net; simp [buildRows, encounters, firstOccur]
  | cons r data ih =>
    intro net
    have step : buildRows freq maxF net (r :: data) =
        buildRows freq maxF (processRow freq maxF net r) data := rfl
    rw [step, ih, processRow_nodes, processRow_added, encounters_cons,
      firstOccur_append]
    simp

/-- The seen set of the whole build is the label list of the first
occurrences. -/
theorem buildRows_added (freq : String → ℕ) (maxF : ℕ) (data : List Row) :
    ∀ net : Net, (buildRows freq maxF net data).added =
      net.added ++ (firstOccur (encounters data) net.added).map Prod.fst := by
  induction data with
  | nil => intro net; simp [buildRows, encounters, firstOccur]
  | cons r data ih =>
    intro net
    have step : buildRows freq maxF net (r :: data) =
        buildRows freq maxF (processRow freq maxF net r) data := rfl
    rw [step, ih, processRow_added, encounters_cons, firstOccur_append]
    simp

/-- The edge sequence of the whole build is the concatenation of the rows'
edge blocks, independent of the registry state. -/
theorem buildRows_edges (freq : String → ℕ) (maxF : ℕ) (data : List Row) :
    ∀ net : Net, (buildRows freq maxF net data).edges =
      net.edges ++ data.flatMap rowEdgeList := by
  induction data with
  | nil => intro net; simp [buildRows]
  | cons r data ih =>
    intro net
    have step : buildRows freq maxF net (r :: data) =
        buildRows freq maxF (processRow freq maxF net r) data := rfl
    rw [step, ih, processRow_edges]
    simp

/-- Nodes of the graph built from scratch. -/
theorem builtNet_nodes (data : List Row) :
    (builtNet data).nodes =
      (firstOccur (encounters data) []).map
        (specNode (descriptor_frequency data) (max_frequency data)) := by
  simp [builtNet, buildRows_nodes, Net.empty]

/-- Edges of the graph built from scratch. -/
theorem builtNet_edges (data : List Row) :
    (builtNet data).edges = data.flatMap rowEdgeList := by
  simp [builtNet, buildRows_edges, Net.empty]

/-- Every encounter carries one of the six configured categories. -/
theorem rowEncounters_cat {p : String × String} {r : Row}
    (h : p ∈ rowEncounters r) : p.2 ∈ categoryNames := by
  unfold rowEncounters at h
  simp only [List.mem_append, List.mem_map] at h
  rcases h with ((((h | h) | h) | h) | h) | h
  · split at h
    · simp only [List.mem_singleton] at h
      subst h; simp [categoryNames]
    · simp at h
  all_goals
    obtain ⟨i, _, hp⟩ := h
  all_goals
    subst hp; simp [categoryNames]

/-- Every encounter of a dataset carries a configured category. -/
theorem encounters_cat {p : String × String} {data : List Row}
    (h : p ∈ encounters data) : p.2 ∈ categoryNames := by
  unfold encounters at h
  simp only [List.mem_flatten, List.mem_map] at h
  obtain ⟨l, ⟨r, _, rfl⟩, hp⟩ := h
  exact rowEncounters_cat hp

/-- Every node of the built graph is the node of some encounter. -/
theorem builtNet_mem_node {data : List Row} {n : Node}
    (h : n ∈ (builtNet data).nodes) :
    ∃ p, p ∈ encounters data ∧
      n = specNode (descriptor_frequency data) (max_frequency data) p := by
  rw [builtNet_nodes] at h
  simp only [List.mem_map] at h
  obtain ⟨p, hp, rfl⟩ := h
  exact ⟨p, firstOccur_subset _ _ hp, rfl⟩

/-- Among the configured categories, the dark purple `#4b0082` identifies
the anchor category. -/
theorem cat_of_anchor_color {c : String} (hc : c ∈ categoryNames)
    (h : color_map c = "#4b0082") : c = "Core CDE Measures" := by
  simp only [categoryNames, List.mem_cons, List.mem_singleton] at hc
  rcases hc with rfl | rfl | rfl | rfl | rfl | rfl | h0
  · rfl
  all_goals first
    | (exact absurd h (by decide))
    | (simp at h0)

/-- Length of a flat map whose blocks have a common length. -/
theorem length_flatMap_const {α β : Type} (l : List α) (f : α → List β) (k : ℕ)
    (h : ∀ a, (f a).length = k) : (l.flatMap f).length = l.length * k := by
  induction l with
  | nil => simp
  | cons a l ih =>
    simp [List.flatMap_cons, h, ih, Nat.succ_mul]
    ring

/-- The edge block of one row counts one anchor edge per item plus the
full cross product of every ordered pair of distinct categories. -/
theorem rowEdgeList_length (r : Row) :
    (rowEdgeList r).length =
      ((normalize r.domain).length + (normalize r.questionnaire).length +
        (normalize r.program).length + (normalize r.study).length +
        (normalize r.pi).length) +
      2 * ((normalize r.domain).length * (normalize r.questionnaire).length +
        (normalize r.domain).length * (normalize r.program).length +
        (normalize r.domain).length * (normalize r.study).length +
        (normalize r.domain).length * (normalize r.pi).length +
        (normalize r.questionnaire).length * (normalize r.program).length +
        (normalize r.questionnaire).length * (normalize r.study).length +
        (normalize r.questionnaire).length * (normalize r.pi).length +
        (normalize r.program).length * (normalize r.study).length +
        (normalize r.program).length * (normalize r.pi).length +
        (normalize r.study).length * (normalize r.pi).length) := by
  simp only [rowEdgeList, rowEdgesSpec, rowDict, List.flatMap_cons, List.flatMap_nil,
    List.append_nil, List.length_append]
  rw [length_flatMap_const _ _
      (1 + ((normalize r.questionnaire).length + (normalize r.program).length +
        (normalize r.study).length + (normalize r.pi).length))
      (fun a => by simp [crossBlock]; ring),
    length_flatMap_const _ _
      (1 + ((normalize r.domain).length + (normalize r.program).length +
        (normalize r.study).length + (normalize r.pi).length))
      (fun a => by simp [crossBlock]; ring),
    length_flatMap_const _ _
      (1 + ((normalize r.domain).length + (normalize r.questionnaire).length +
        (normalize r.study).length + (normalize r.pi).length))
      (fun a => by simp [crossBlock]; ring),
    length_flatMap_const _ _
      (1 + ((normalize r.domain).length + (normalize r.questionnaire).length +
        (normalize r.program).length + (normalize r.pi).length))
      (fun a => by simp [crossBlock]; ring),
    length_flatMap_const _ _
      (1 + ((normalize r.domain).length + (normalize r.questionnaire).length +
        (normalize r.program).length + (normalize r.study).length))
      (fun a => by simp [crossBlock]; ring)]
  ring

/-- Labels of the nodes of the built graph. -/
theorem builtNet_ids (data : List Row) :
    (builtNet data).nodes.map Node.id =
      (firstOccur (encounters data) []).map Prod.fst := by
  rw [builtNet_nodes, List.map_map]
  rfl

/-- A label owns a node exactly when it occurs in the encounter stream. -/
theorem builtNet_id_mem (data : List Row) (l : String) :
    l ∈ (builtNet data).nodes.map Node.id ↔ l ∈ (encounters data).map Prod.fst := by
  rw [builtNet_ids]
  simpa using firstOccur_fst_mem l (encounters data) []

/-- The anchor color of the configuration. -/
theorem color_map_core : color_map "Core CDE Measures" = "#4b0082" := rfl

/-- An encounter carrying the anchor category is a valid value of the
anchor column. -/
theorem anchor_encounter {p : String × String} {data : List Row}
    (hp : p ∈ encounters data) (hcat : p.2 = "Core CDE Measures") :
    p.1 ∈ anchor_values data := by
  unfold encounters at hp
  simp only [List.mem_flatten, List.mem_map] at hp
  obtain ⟨l, ⟨r, hr, rfl⟩, hmem⟩ := hp
  unfold rowEncounters at hmem
  simp only [List.mem_append, List.mem_map] at hmem
  rcases hmem with ((((h | h) | h) | h) | h) | h
  · rcases hval : decide (¬(r.core = "nan" ∨ r.core = "")) with _ | _
    · rw [if_neg (by simpa using hval)] at h
      simp at h
    · rw [if_pos (by simpa using hval)] at h
      simp only [List.mem_singleton] at h
      subst h
      simp only [anchor_values, List.mem_filter, List.mem_map]
      exact ⟨⟨r, hr, rfl⟩, hval⟩
  all_goals
    obtain ⟨i, _, hp2⟩ := h
  all_goals
    rw [← hp2] at hcat
  all_goals
    simp at hcat

/-!
Claim theorems.
-/

/-- C1, counterexample: for the single row of `dCross` (anchor `"A"`,
Domain `"D"`, Questionnaire `"Q"`, item counts 1 and 1) the claim predicts
`(1 + 1) + 1 * 1 = 3` edges, but the build appends 4: the cross product of
the Domain and Questionnaire items is emitted twice, once from each
side. -/
theorem c1_counterexample :
    (builtNet dCross).edges.length = 4 ∧
    ((normalize "D").length + (normalize "Q").length) +
      (normalize "D").length * (normalize "Q").length = 3 ∧
    (builtNet dCross).edges.length ≠ 3 :=
  ⟨by decide, by decide, by decide⟩

/-- C1 (amended): a row with a non-missing anchor value appends exactly
`sum ci` anchor edges plus, for every ORDERED pair of distinct non-anchor
categories, `ci * cj` cross edges — the full cross product of each
unordered pair is emitted twice, once in each direction — for a row total
of `sum ci + 2 * (sum over unordered pairs of ci * cj)`. -/
theorem c1_row_edge_count (freq : String → ℕ) (maxF : ℕ) (net : Net) (r : Row)
    (_hvalid : ¬(r.core = "nan" ∨ r.core = "")) :
    (processRow freq maxF net r).edges = net.edges ++ rowEdgeList r ∧
    (rowEdgeList r).length =
      ((normalize r.domain).length + (normalize r.questionnaire).length +
        (normalize r.program).length + (normalize r.study).length +
        (normalize r.pi).length) +
      2 * ((normalize r.domain).length * (normalize r.questionnaire).length +
        (normalize r.domain).length * (normalize r.program).length +
        (normalize r.domain).length * (normalize r.study).length +
        (normalize r.domain).length * (normalize r.pi).length +
        (normalize r.questionnaire).length * (normalize r.program).length +
        (normalize r.questionnaire).length * (normalize r.study).length +
        (normalize r.questionnaire).length * (normalize r.pi).length +
        (normalize r.program).length * (normalize r.study).length +
        (normalize r.program).length * (normalize r.pi).length +
        (normalize r.study).length * (normalize r.pi).length) :=
  ⟨processRow_edges freq maxF net r, rowEdgeList_length r⟩

/-- Witness for C1 (amended) at the row of `dCross`: the appended block
has `2 + 2 * 1 = 4` edges. -/
theorem c1_row_edge_count_witness :
    (processRow (fun _ => 1) 1 Net.empty ⟨"A", "D", "Q", "nan", "nan", "nan"⟩).edges =
      Net.empty.edges ++ rowEdgeList ⟨"A", "D", "Q", "nan", "nan", "nan"⟩ ∧
    (rowEdgeList ⟨"A", "D", "Q", "nan", "nan", "nan"⟩).length = 4 := by
  have h := c1_row_edge_count (fun _ => 1) 1 Net.empty
    ⟨"A", "D", "Q", "nan", "nan", "nan"⟩ (by decide)
  exact ⟨h.1, by rw [h.2]; decide⟩

/-- C2: the node list of the build is exactly the first-occurrence
subsequence of the encounter stream (each node created once, at the first
encounter of its label in row-then-column scan order, styled by that
first category — later encounters под any category change nothing); node
labels are pairwise distinct; and a label owns a node iff it occurs under
some category, identity being the label string alone. -/
theorem c2_node_registry_first_writer_wins (data : List Row) :
    (builtNet data).nodes =
      (firstOccur (encounters data) []).map
        (specNode (descriptor_frequency data) (max_frequency data)) ∧
    ((builtNet data).nodes.map Node.id).Nodup ∧
    ∀ l : String, l ∈ (builtNet data).nodes.map Node.id ↔
      l ∈ (encounters data).map Prod.fst := by
  refine ⟨builtNet_nodes data, ?_, builtNet_id_mem data⟩
  rw [builtNet_ids]
  exact firstOccur_fst_nodup (encounters data) []

/-- C3, counterexample: in `dAllCols` the anchor value `"A"` occurs once
in the anchor column and the maximum anchor-column count is 1, so the
claimed size is `30 * (1/1) = 30`; the built `"A"` node instead has size
`30 * (1/2) = 15`, because the code's frequency map also counts the
Domain value `"D"` (two occurrences across all columns) and takes the
maximum over all columns. -/
theorem c3_counterexample :
    (builtNet dAllCols).nodes.map Node.id = ["A", "D"] ∧
    (builtNet dAllCols).nodes.map Node.size = [15, 15] ∧
    30 * ((anchor_count dAllCols "A" : ℚ) / (max_anchor_count dAllCols : ℚ)) = 30 ∧
    (15 : ℚ) ≠ 30 := by
  refine ⟨by decide, ?_, ?_, by norm_num⟩
  · rw [builtNet_nodes]
    have hfo : firstOccur (encounters dAllCols) [] =
        [("A", "Core CDE Measures"), ("D", "Domain")] := by decide
    have hf : descriptor_frequency dAllCols "A" = 1 := by decide
    have hm : max_frequency dAllCols = 2 := by decide
    rw [hfo]
    simp [specNode, hf, hm]
    norm_num
  · have h1 : anchor_count dAllCols "A" = 1 := by decide
    have h2 : max_anchor_count dAllCols = 1 := by decide
    rw [h1, h2]
    norm_num

/-- C3 (amended): the frequency map counts every non-missing whole-cell
value of EVERY column, not only the anchor column, and the normalization
denominator is the maximum such all-column count; an anchor-colored node
has size `30 * (all-column count of its label / all-column maximum)`. -/
theorem c3_frequency_all_columns (data : List Row) (n : Node)
    (hmem : n ∈ (builtNet data).nodes)
    (hcolor : n.color = color_map "Core CDE Measures") :
    n.size = 30 * ((descriptor_frequency data n.id : ℚ) / (max_frequency data : ℚ)) := by
  obtain ⟨p, hp, rfl⟩ := builtNet_mem_node hmem
  have hcat := encounters_cat hp
  have hcol2 : color_map p.2 = "#4b0082" := by
    simpa [specNode, color_map_core] using hcolor
  have hc : p.2 = "Core CDE Measures" := cat_of_anchor_color hcat hcol2
  simp [specNode, hc]

/-- Witness for C3 (amended) at `dAllCols`: the `"A"` node's size equals
`30 * (1/2) = 15` computed from the all-column frequency map. -/
theorem c3_frequency_all_columns_witness :
    cNodeA ∈ (builtNet dAllCols).nodes ∧
    cNodeA.size =
      30 * ((descriptor_frequency dAllCols cNodeA.id : ℚ) /
        (max_frequency dAllCols : ℚ)) := by
  have hfo : firstOccur (encounters dAllCols) [] =
      [("A", "Core CDE Measures"), ("D", "Domain")] := by decide
  have hf : descriptor_frequency dAllCols "A" = 1 := by decide
  have hm : max_frequency dAllCols = 2 := by decide
  have hnodes : (builtNet dAllCols).nodes =
      [specNode (descriptor_frequency dAllCols) (max_frequency dAllCols)
          ("A", "Core CDE Measures"),
        specNode (descriptor_frequency dAllCols) (max_frequency dAllCols)
          ("D", "Domain")] := by
    rw [builtNet_nodes, hfo]
    rfl
  have hA : cNodeA = specNode (descriptor_frequency dAllCols) (max_frequency dAllCols)
      ("A", "Core CDE Measures") := by
    simp [cNodeA, specNode, hf, hm, color_map, shape_map]
    norm_num
  have hmemA : cNodeA ∈ (builtNet dAllCols).nodes := by
    rw [hnodes, hA]
    exact List.mem_cons_self _ _
  exact ⟨hmemA, c3_frequency_all_columns dAllCols cNodeA hmemA rfl⟩

/-- C4, counterexample: `dEmpty` has zero valid anchor values, yet
construction raises (Python's `max` on the empty `Counter`), instead of
defaulting the denominator to 1 and completing. -/
theorem c4_counterexample :
    anchor_values dEmpty = [] ∧
    create_knowledge_graph dEmpty =
      Except.error "ValueError: max() arg is an empty sequence" :=
  ⟨by decide, rfl⟩

/-- C4 (amended): there is no default-to-1 guard.  When EVERY cell of the
dataset is missing or empty, `max()` is applied to an empty sequence and
construction fails with an error; when some cell is valid, construction
completes, and a dataset with zero valid anchor values then simply
produces no anchor-colored node at all (rather than anchor nodes of
size 0). -/
theorem c4_no_empty_guard (data : List Row) :
    (all_descriptors data = [] →
      create_knowledge_graph data =
        Except.error "ValueError: max() arg is an empty sequence") ∧
    (all_descriptors data ≠ [] →
      create_knowledge_graph data = Except.ok (builtNet data)) ∧
    (anchor_values data = [] →
      ∀ n, n ∈ (builtNet data).nodes → n.color ≠ color_map "Core CDE Measures") := by
  refine ⟨fun h => by simp [create_knowledge_graph, h],
    fun h => by simp [create_knowledge_graph, h], ?_⟩
  intro hanchor n hn hcolor
  obtain ⟨p, hp, rfl⟩ := builtNet_mem_node hn
  have hcat := encounters_cat hp
  have hcol2 : color_map p.2 = "#4b0082" := by
    simpa [specNode, color_map_core] using hcolor
  have hc : p.2 = "Core CDE Measures" := cat_of_anchor_color hcat hcol2
  have hmem := anchor_encounter hp hc
  rw [hanchor] at hmem
  simp at hmem

/-- Witness for C4 (amended) at `dNoAnchor`: no valid anchor value, one
valid Domain value — construction completes and the only node is not
anchor-colored. -/
theorem c4_no_empty_guard_witness :
    create_knowledge_graph dNoAnchor = Except.ok (builtNet dNoAnchor) ∧
    cNodeD ∈ (builtNet dNoAnchor).nodes ∧
    cNodeD.color ≠ color_map "Core CDE Measures" := by
  have hmem : cNodeD ∈ (builtNet dNoAnchor).nodes := by decide
  exact ⟨(c4_no_empty_guard dNoAnchor).2.1 (by decide), hmem,
    (c4_no_empty_guard dNoAnchor).2.2 (by decide) cNodeD hmem⟩

/-- C5 (code bug, evaluated): the single row of `dMissingAnchor` has a
missing anchor cell; the build registers the Domain node `"Pain"`, but
still appends the anchor-slot edge `("nan", "Pain")` — the
`add_edge(core_cde_measure, node)` call is not guarded by the
anchor-validity check, so the sentinel becomes an edge endpoint that is
not a registered node. -/
theorem c5_missing_anchor_sentinel_edge :
    (builtNet dMissingAnchor).nodes.map Node.id = ["Pain"] ∧
    (builtNet dMissingAnchor).edges = [("nan", "Pain")] ∧
    "nan" ∉ (builtNet dMissingAnchor).nodes.map Node.id :=
  ⟨by decide, by decide, by decide⟩

/-- C6: the item list `process_entries` returns is exactly `normalize`:
the empty list on the sentinel `"nan"` or the empty string, otherwise the
comma-separated pieces with surrounding whitespace trimmed and pieces that
become empty dropped, in cell order with duplicates preserved. -/
theorem c6_entry_normalization :
    (∀ (entries t : String) (net : Net),
      (process_entries entries t net).1 = normalize entries) ∧
    normalize "nan" = [] ∧
    normalize "" = [] ∧
    normalize " Sleep , Pain " = ["Sleep", "Pain"] ∧
    normalize "Pain,Pain" = ["Pain", "Pain"] ∧
    normalize "a, ,b" = ["a", "b"] :=
  ⟨process_entries_fst, by decide, by decide, by decide, by decide, by decide⟩

/-- C7: a node bearing the anchor color has size exactly
`30 * (count / max)` — no minimum-size floor is applied to the formula —
while every node of a non-anchor category has the fixed size 15. -/
theorem c7_size_policy (data : List Row) (n : Node)
    (hmem : n ∈ (builtNet data).nodes) :
    (n.color = color_map "Core CDE Measures" →
      n.size = 30 * ((descriptor_frequency data n.id : ℚ) /
        (max_frequency data : ℚ))) ∧
    (n.color ≠ color_map "Core CDE Measures" → n.size = 15) := by
  obtain ⟨p, hp, rfl⟩ := builtNet_mem_node hmem
  have hcat := encounters_cat hp
  constructor
  · intro hcolor
    have hcol2 : color_map p.2 = "#4b0082" := by
      simpa [specNode, color_map_core] using hcolor
    have hc : p.2 = "Core CDE Measures" := cat_of_anchor_color hcat hcol2
    simp [specNode, hc]
  · intro hcolor
    have hc : p.2 ≠ "Core CDE Measures" := by
      intro h
      exact hcolor (by simp [specNode, h])
    simp [specNode, hc]

/-- Witness for C7 at `dScaled`: the anchor node `"X"` (count 1, maximum
count 4) has size `30 * (1/4) = 7.5`, strictly below the declared minimum
of 15, and the Domain node `"Y"` has size 15. -/
theorem c7_size_policy_witness :
    cNodeX ∈ (builtNet dScaled).nodes ∧
    cNodeX.size = 30 * ((descriptor_frequency dScaled cNodeX.id : ℚ) /
      (max_frequency dScaled : ℚ)) ∧
    cNodeX.size < 15 ∧
    cNodeY ∈ (builtNet dScaled).nodes ∧
    cNodeY.size = 15 := by
  have hfo : firstOccur (encounters dScaled) [] =
      [("X", "Core CDE Measures"), ("Y", "Domain")] := by decide
  have hf : descriptor_frequency dScaled "X" = 1 := by decide
  have hm : max_frequency dScaled = 4 := by decide
  have hnodes : (builtNet dScaled).nodes =
      [specNode (descriptor_frequency dScaled) (max_frequency dScaled)
          ("X", "Core CDE Measures"),
        specNode (descriptor_frequency dScaled) (max_frequency dScaled)
          ("Y", "Domain")] := by
    rw [builtNet_nodes, hfo]
    rfl
  have hX : cNodeX = specNode (descriptor_frequency dScaled) (max_frequency dScaled)
      ("X", "Core CDE Measures") := by
    simp [cNodeX, specNode, hf, hm, color_map, shape_map]
    norm_num
  have hY : cNodeY = specNode (descriptor_frequency dScaled) (max_frequency dScaled)
      ("Y", "Domain") := by
    simp [cNodeY, specNode, color_map, shape_map]
  have hmemX : cNodeX ∈ (builtNet dScaled).nodes := by
    rw [hnodes, hX]
    exact List.mem_cons_self _ _
  have hmemY : cNodeY ∈ (builtNet dScaled).nodes := by
    rw [hnodes, hY]
    exact List.mem_cons_of_mem _ (List.mem_cons_self _ _)
  refine ⟨hmemX, (c7_size_policy dScaled cNodeX hmemX).1 rfl, ?_, hmemY,
    (c7_size_policy dScaled cNodeY hmemY).2 (by decide)⟩
  norm_num [cNodeX]

/-- C8: the edge sequence is a pure append of each row's block — the
accumulated edges are never consulted, so no deduplication ever happens:
repetitions of a pair across rows add up, and within the row of `dDup`
the pair `("A", "D")` is appended twice. -/
theorem c8_edge_multiplicity :
    (∀ (freq : String → ℕ) (maxF : ℕ) (net : Net) (data : List Row),
      (buildRows freq maxF net data).edges = net.edges ++ data.flatMap rowEdgeList) ∧
    (∀ (data : List Row) (r : Row) (p : String × String),
      ((data ++ [r]).flatMap rowEdgeList).count p =
        (data.flatMap rowEdgeList).count p + (rowEdgeList r).count p) ∧
    (builtNet dDup).edges.count ("A", "D") = 2 := by
  refine ⟨fun freq maxF net data => buildRows_edges freq maxF data net, ?_, by decide⟩
  intro data r p
  simp [List.flatMap_append, List.count_append]

/-- C9: the anchor cell is used verbatim as the node label — never split
on commas and never whitespace-trimmed: every valid anchor cell of the
dataset appears as a node label exactly as written; the anchor cell
`"A, B"` yields the single node `"A, B"`, and the anchor `" X"` coexists
with the distinct item node `"X"`. -/
theorem c9_anchor_verbatim :
    (∀ (data : List Row) (r : Row), r ∈ data → ¬(r.core = "nan" ∨ r.core = "") →
      r.core ∈ (builtNet data).nodes.map Node.id) ∧
    (builtNet dCommaAnchor).nodes.map Node.id = ["A, B"] ∧
    (builtNet dSpaceAnchor).nodes.map Node.id = [" X", "X"] := by
  refine ⟨?_, by decide, by decide⟩
  intro data r hr hvalid
  rw [builtNet_id_mem]
  refine List.mem_map.mpr ⟨(r.core, "Core CDE Measures"), ?_, rfl⟩
  unfold encounters
  refine List.mem_flatten.mpr ⟨rowEncounters r, List.mem_map.mpr ⟨r, hr, rfl⟩, ?_⟩
  unfold rowEncounters
  rw [if_pos hvalid]
  simp

/-- Witness for C9 at `dCommaAnchor`. -/
theorem c9_anchor_verbatim_witness :
    "A, B" ∈ (builtNet dCommaAnchor).nodes.map Node.id :=
  c9_anchor_verbatim.1 dCommaAnchor ⟨"A, B", "nan", "nan", "nan", "nan", "nan"⟩
    (by decide) (by decide)

/-- C10: the missing-value check applies only to the whole cell before
splitting: in the Domain cell `"Pain,nan"` the trimmed item `"nan"`
survives, is registered as a Domain-styled node labelled `"nan"`, and is
connected by an anchor edge like any other item. -/
theorem c10_nan_item_registered :
    normalize "Pain,nan" = ["Pain", "nan"] ∧
    (builtNet dNanItem).nodes.map Node.id = ["A", "Pain", "nan"] ∧
    (builtNet dNanItem).nodes.map Node.color = ["#4b0082", "#dda0dd", "#dda0dd"] ∧
    (builtNet dNanItem).edges = [("A", "Pain"), ("A", "nan")] :=
  ⟨by decide, by decide, by decide, by decide⟩

example : strip " Sleep " = "Sleep" := by decide

example : splitCommas " Sleep , Pain " = [" Sleep ", " Pain "] := by decide

end HealKG
